import Mathlib

/-!
# Verification of the LDraw model packer (`src/ldraw/packLDrawModel.mjs`)

This file gives a shallow embedding of the packer's core: the recursive
resolver `parseObject`, the candidate path search, the line
classifier/rewriter, the dedup cache (`pathMap`), the parallel output
sequences (`objectsPaths` / `objectsContents`), and the external identifier
fallback `fetchLDrawValue`.

Modelling conventions:
* The filesystem is a function `fs : String → Option String` from a joined
  path to file content (`none` models a throwing `fs.readFileSync`).
  Since `ldrawPath = './'`, `path.join(ldrawPath, f) = f` and
  `path.join(ldrawPath, pre, f) = pre ++ f` for the prefixes used
  (`'parts/'`, `'p/'`, `'models/'`), so joining is modelled as string
  concatenation.
* The external lookup is a function `api : String → Option String` mapping a
  query id to `data.results[0].external_ids.LDraw[0]` when that access
  succeeds, and `none` when the JSON shape does not match.  Transport faults
  are outside the embedding.
* JavaScript strings are modelled by Lean `String` (a list of characters);
  JS string primitives (`trim`, `toLowerCase`, `startsWith`, `split`,
  global `replace`, …) are re-implemented below on ASCII semantics.
* The two run-global effect traces `reads` (every `readFileSync` path, in
  order) and `lookups` (every `fetchLDrawValue` invocation) instrument the
  state; they are write-only and do not influence control flow.
* Recursion depth is bounded by explicit fuel; `none` models a
  non-terminating (or fuel-exhausted) run.
-/

namespace PackLDraw

/-! ## JS string primitives -/

/-- Space or tab, the two characters the packer's scanning loops treat as
whitespace. -/
def isSpaceTab (c : Char) : Bool := c = ' ' || c = '\t'

/-- Whitespace as trimmed by JS `String.prototype.trim` (ASCII subset). -/
def jsWs (c : Char) : Bool := c = ' ' || c = '\t' || c = '\r' || c = '\n'

/-- `leadsWith pat cs` is true when `pat` is an initial segment of `cs`. -/
def leadsWith : List Char → List Char → Bool
  | [], _ => true
  | _ :: _, [] => false
  | p :: ps, c :: cs => p = c && leadsWith ps cs

/-- JS `s.startsWith(pre)`. -/
def jsStartsWith (s pre : String) : Bool := leadsWith pre.data s.data

/-- JS `s.endsWith(suf)`. -/
def jsEndsWith (s suf : String) : Bool := leadsWith suf.data.reverse s.data.reverse

/-- JS `s.toLowerCase()` (ASCII). -/
def jsToLower (s : String) : String := String.mk (s.data.map Char.toLower)

/-- Remove trailing JS whitespace. -/
def dropTrailingWs (cs : List Char) : List Char := (cs.reverse.dropWhile jsWs).reverse

/-- JS `s.trim()`. -/
def jsTrim (s : String) : String := String.mk (dropTrailingWs (s.data.dropWhile jsWs))

/-- `s.trim().replace(/\\/g, '/')`: the path normalisation applied to every
name and resolved path in the packer. -/
def normPath (s : String) : String :=
  String.mk ((jsTrim s).data.map (fun c => if c = '\\' then '/' else c))

/-- JS `s.split('\n')` on the character list: the list of lines, where a
trailing newline yields a final empty piece. -/
def splitNl : List Char → List (List Char)
  | [] => [[]]
  | c :: cs =>
    match splitNl cs with
    | [] => [[]]
    | r :: rs => if c = '\n' then [] :: r :: rs else (c :: r) :: rs

/-- Global, left-to-right, non-overlapping replacement, fuelled by the input
length (the fuel is always sufficient because each replacement step consumes
at least one character). -/
def replaceAllAux (pat rep : List Char) : Nat → List Char → List Char
  | _, [] => []
  | 0, cs => cs
  | n + 1, c :: cs =>
    if leadsWith pat (c :: cs) then rep ++ replaceAllAux pat rep n ((c :: cs).drop pat.length)
    else c :: replaceAllAux pat rep n cs

/-- JS `s.replace(/pat/g, rep)` for a literal pattern. -/
def jsReplaceAll (pat rep s : String) : String :=
  if pat.data.isEmpty then s else String.mk (replaceAllAux pat.data rep.data s.data.length s.data)

/-- JS `s.replace(/(\d+)(?!.*\d)/, '0$1')` (from `fetchLDrawValue`): insert a
leading `'0'` before the last maximal digit run, if any. -/
def addZeroLastRun (s : String) : String :=
  let r := s.data.reverse
  let tail := r.takeWhile (fun c => !c.isDigit)
  let run := (r.drop tail.length).takeWhile Char.isDigit
  let rest := r.drop (tail.length + run.length)
  if run.isEmpty then s
  else String.mk (rest.reverse ++ '0' :: run.reverse ++ tail.reverse)

/-- The first maximal digit run of `s`, i.e. the JS match of `/\d+/`
(`none` when `s` has no digit). -/
def firstDigitRun (s : String) : Option String :=
  let cs := s.data.dropWhile (fun c => !c.isDigit)
  match cs with
  | [] => none
  | _ :: _ => some (String.mk (cs.takeWhile Char.isDigit))

/-- JS string coercion of a `match` result: a failed match (`null`) coerces
to the literal string `"null"`; a successful one-element match array coerces
to the matched text. -/
def jsMatchStr : Option String → String
  | none => "null"
  | some s => s

/-- `path.parse(s).name` on POSIX: the basename with its last extension
removed (a dot at position 0 of the basename does not start an extension). -/
def parseName (s : String) : String :=
  let b := (s.data.reverse.takeWhile (fun c => c ≠ '/')).reverse
  match b.reverse.dropWhile (fun c => c ≠ '.') with
  | [] => String.mk b
  | _ :: [] => String.mk b
  | _ :: rest => String.mk rest.reverse

/-- `validExtensions.some(ext => originalFileName.endsWith(ext))` with
`validExtensions = ['.ldr', '.dat', '.mpd']`. -/
def hasValidExtension (s : String) : Bool :=
  jsEndsWith s ".ldr" || jsEndsWith s ".dat" || jsEndsWith s ".mpd"

/-! ## The run state -/

/-- `pathMap[k]` lookup on the association-list model of the JS object. -/
def mapLookup (m : List (String × String)) (k : String) : Option String :=
  (m.find? (fun e => e.1 = k)).map (fun e => e.2)

/-- `pathMap[k] = v` on the association-list model. -/
def mapInsert (m : List (String × String)) (k v : String) : List (String × String) :=
  if (m.find? (fun e => e.1 = k)).isSome then
    m.map (fun e => if e.1 = k then (k, v) else e)
  else m ++ [(k, v)]

/-- JS truthiness of a possibly-absent string (`undefined` and `''` are
falsy). -/
def truthy : Option String → Bool
  | none => false
  | some s => !s.data.isEmpty

/-- The module-level mutable state of the packer, plus the two effect
traces (`reads`, `lookups`). -/
structure PackState where
  pathMap : List (String × String)
  objectsPaths : List String
  objectsContents : List String
  unsupportedParts : List String
  reads : List String
  lookups : List String
deriving DecidableEq, Repr

/-- The state at program start. -/
def initialState : PackState := ⟨[], [], [], [], [], []⟩

/-- Record one `readFileSync` attempt in the `reads` trace. -/
def recordReads (st : PackState) (ps : List String) : PackState :=
  { st with reads := st.reads ++ ps }

/-! ## Path search (one case pass of `parseObject`'s attempt loop) -/

/-- The special-case prefix chosen at the top of each attempt:
`'p/'` for names starting `'48/'`, `'parts/'` for names starting `'s/'`,
else empty.  It qualifies the returned path only; the first read is always
at the root-relative path. -/
def specialPre (fileName : String) : String :=
  if jsStartsWith fileName "48/" then "p/"
  else if jsStartsWith fileName "s/" then "parts/"
  else ""

/-- One attempt of the nested `try`/`catch` search: read the root-relative
path, then under `'parts/'`, then `'p/'`, then `'models/'`; the first
successful read wins and no further candidate is attempted.  Returns the
prefix in effect at the successful read together with the content. -/
def searchPass (fs : String → Option String) (st : PackState) (fileName : String) :
    PackState × Option (String × String) :=
  let st := recordReads st [fileName]
  match fs fileName with
  | some content => (st, some (specialPre fileName, content))
  | none =>
    let st := recordReads st ["parts/" ++ fileName]
    match fs ("parts/" ++ fileName) with
    | some content => (st, some ("parts/", content))
    | none =>
      let st := recordReads st ["p/" ++ fileName]
      match fs ("p/" ++ fileName) with
      | some content => (st, some ("p/", content))
      | none =>
        let st := recordReads st ["models/" ++ fileName]
        match fs ("models/" ++ fileName) with
        | some content => (st, some ("models/", content))
        | none => (st, none)

/-! ## External identifier fallback (`fetchLDrawValue`) -/

/-- `fetchLDrawValue(partId)`: standardize print headers
(`bpb` → `pb`), query; on a shape mismatch retry with a leading zero added
to the last digit run; if both attempts miss, record the part in
`unsupportedParts` and return `null`. -/
def fetchLDrawValue (api : String → Option String) (st : PackState) (partId : String) :
    Option String × PackState :=
  let stdId1 := jsReplaceAll "bpb" "pb" partId
  let stdId2 := addZeroLastRun stdId1
  match api stdId1 with
  | some v => (some v, st)
  | none =>
    match api stdId2 with
    | some v => (some v, st)
    | none => (none, { st with unsupportedParts := st.unsupportedParts ++ [partId] })

/-! ## Line scanning -/

/-- The leading space/tab strip applied to every line before
classification (`charIndex` scan plus `line.substring(charIndex)`). -/
def stripLeading (line : String) : String :=
  String.mk (line.data.dropWhile isSpaceTab)

/-- Advance past one whitespace-delimited token then the whitespace after
it, `k` times, stopping early when the line is exhausted (the
`for token = 0; token < 13 && charIndex < lineLength` loop).  Returns the
consumed characters and the remainder. -/
def skipFields : Nat → List Char → List Char × List Char
  | 0, cs => ([], cs)
  | k + 1, cs =>
    if cs.isEmpty then ([], cs)
    else
      let tok := cs.takeWhile (fun c => !isSpaceTab c)
      let r1 := cs.dropWhile (fun c => !isSpaceTab c)
      let ws := r1.takeWhile isSpaceTab
      let r2 := r1.dropWhile isSpaceTab
      let (pre, rest) := skipFields k r2
      (tok ++ ws ++ pre, rest)

/-- Process one line of a document: returns the text appended to
`processedObjectContent` and the updated state.  `resolve` is the recursive
`parseObject` call (with `isRoot` omitted, i.e. false); `i` is the raw line
index.  `none` propagates fuel exhaustion from the recursive call. -/
def processLineStep (resolve : String → PackState → Option (String × PackState))
    (i : Nat) (rawLine : String) (st : PackState) : Option (String × PackState) :=
  let line := stripLeading rawLine
  if jsStartsWith line "0 FILE " then
    -- first line: `continue` (ignore the FILE meta directive entirely)
    if i = 0 then some ("", st)
    else
      -- record the (whole) line in the path cache, then fall through to the
      -- plain-content append (the line does not start with '1 ')
      let subobjectFileName := normPath line
      let st :=
        if subobjectFileName ≠ "" then
          if truthy (mapLookup st.pathMap subobjectFileName) then st
          else { st with pathMap := mapInsert st.pathMap subobjectFileName subobjectFileName }
        else st
      some (line ++ "\n", st)
  else if jsStartsWith line "1 " then
    let cs := line.data
    let (consumed, restCs) := skipFields 13 (cs.drop 2)
    let subobjectFileName := normPath (String.mk restCs)
    if subobjectFileName ≠ "" then
      let cached := mapLookup st.pathMap subobjectFileName
      if truthy cached then
        let subobjectPath := cached.getD ""
        let st := { st with pathMap := mapInsert st.pathMap subobjectPath subobjectPath }
        some (String.mk (cs.take 2 ++ consumed) ++ subobjectPath ++ "\n", st)
      else
        match resolve subobjectFileName st with
        | none => none
        | some (subobjectPath, st) =>
          let st := { st with pathMap := mapInsert st.pathMap subobjectPath subobjectPath }
          some (String.mk (cs.take 2 ++ consumed) ++ subobjectPath ++ "\n", st)
    else some ("", st)
  else some (line ++ "\n", st)

/-- The body-rewriting loop over a document's lines, accumulating
`processedObjectContent` in `acc`. -/
def processLinesAux (resolve : String → PackState → Option (String × PackState)) :
    List String → Nat → String → PackState → Option (String × PackState)
  | [], _, acc, st => some (acc, st)
  | l :: rest, i, acc, st =>
    match processLineStep resolve i l st with
    | none => none
    | some (emitted, st) => processLinesAux resolve rest (i + 1) (acc ++ emitted) st

/-- The tail of `parseObject` once content has been located:
normalise line endings, rewrite the body (prefixing the synthesized
`0 FILE` header for non-root documents), append to the output sequences
when the resolved path is new, and return the resolved path.
`fileName` is the name the content was found under (possibly lowercased)
and `pre` the prefix in effect at the successful read. -/
def finishFound (resolve : String → PackState → Option (String × PackState))
    (fileName pre content : String) (isRoot : Bool) (st : PackState) :
    Option (String × PackState) :=
  let objectPath := normPath (pre ++ fileName)
  let content := jsReplaceAll "\r\n" "\n" content
  let lines := (splitNl content.data).map String.mk
  let initBody := if isRoot then "" else "0 FILE " ++ objectPath ++ "\n"
  match processLinesAux resolve lines 0 initBody st with
  | none => none
  | some (body, st) =>
    let st :=
      if st.objectsPaths.contains objectPath then st
      else { st with objectsPaths := st.objectsPaths ++ [objectPath],
                     objectsContents := st.objectsContents ++ [body] }
    some (objectPath, st)

/-- One unfolding of `parseObject`, with `rec` standing for the recursive
call at smaller fuel: the two case-variant attempts of the candidate
search, the external-identifier fallback on a doubly-failed non-root
reference with a recognised extension, and the not-found early return. -/
def parseObjectF (fs api : String → Option String)
    (rec : String → Bool → PackState → Option (String × PackState))
    (fileName : String) (isRoot : Bool) (st : PackState) :
    Option (String × PackState) :=
  let resolve : String → PackState → Option (String × PackState) :=
    fun n s => rec n false s
  let r0 := searchPass fs st fileName
  match r0.2 with
  | some (pre, content) => finishFound resolve fileName pre content isRoot r0.1
  | none =>
    let lowered := jsToLower fileName
    let r1 := searchPass fs r0.1 lowered
    match r1.2 with
    | some (pre, content) => finishFound resolve lowered pre content isRoot r1.1
    | none =>
      if !isRoot && hasValidExtension fileName then
        let partId := parseName fileName
        let st3 := { r1.1 with lookups := r1.1.lookups ++ [partId] }
        let fr := fetchLDrawValue api st3 partId
        let newName :=
          (match fr.1 with
           | none => jsMatchStr (firstDigitRun partId) ++ ".dat"
           | some v => v ++ ".dat")
        rec newName false fr.2
      else
        some (normPath lowered, r1.1)

/-- The pure result of one case pass of the candidate search (the
state-free projection of `searchPass`). -/
def searchFind (fs : String → Option String) (n : String) : Option (String × String) :=
  match fs n with
  | some c => some (specialPre n, c)
  | none =>
    match fs ("parts/" ++ n) with
    | some c => some ("parts/", c)
    | none =>
      match fs ("p/" ++ n) with
      | some c => some ("p/", c)
      | none =>
        match fs ("models/" ++ n) with
        | some c => some ("models/", c)
        | none => none

/-- The recursive resolver `parseObject(fileName, isRoot)`, fuelled. -/
def parseObject (fs api : String → Option String) :
    Nat → String → Bool → PackState → Option (String × PackState)
  | 0, _, _, _ => none
  | fuel + 1, fileName, isRoot, st =>
    parseObjectF fs api (parseObject fs api fuel) fileName isRoot st

/-- The driver `packLDrawModel()`: resolve the root, then assemble
`materialsContent + '\n'` followed by the collected bodies in reverse
discovery order and a final `'\n'`.  The returned string is the content
written to the output file (the materials file content is a parameter;
reading it is out of scope). -/
def packLDrawModel (fs api : String → Option String) (fuel : Nat)
    (materialsContent fileName : String) : Option (String × PackState) :=
  match parseObject fs api fuel fileName true initialState with
  | none => none
  | some (_, st) =>
    some (materialsContent ++ "\n" ++
          String.mk (List.foldr (fun s acc => s.data ++ acc) [] st.objectsContents.reverse) ++
          "\n", st)

/-! ## Predicates, spec-side comparison definitions, and test fixtures -/

/-- All four candidate reads of one case pass fail. -/
def passMiss (fs : String → Option String) (n : String) : Prop :=
  fs n = none ∧ fs ("parts/" ++ n) = none ∧ fs ("p/" ++ n) = none ∧
    fs ("models/" ++ n) = none

/-- Modelled from the spec's words, for comparison only (claim C3): the
"longest trailing digit run" of an identifier, i.e. its final maximal digit
run. -/
def specTrailingDigitRun (s : String) : String :=
  String.mk (((s.data.reverse.dropWhile (fun c => !c.isDigit)).takeWhile Char.isDigit).reverse)

/-- The character list does not begin with a space or tab. -/
def headNotWs : List Char → Bool
  | [] => true
  | c :: _ => !isSpaceTab c

/-- A well-formed field list: each field non-empty and free of spaces and
tabs. -/
def wfFields (fields : List (List Char)) : Prop :=
  ∀ f ∈ fields, f ≠ [] ∧ ∀ c ∈ f, isSpaceTab c = false

/-- `k` fields, each followed by a single space, then `tail`. -/
def joinWith : List (List Char) → List Char → List Char
  | [], tail => tail
  | f :: fs, tail => f ++ ' ' :: joinWith fs tail

/-- Fields separated by single spaces, with no trailing separator. -/
def joinFs : List (List Char) → List Char
  | [] => []
  | [f] => f
  | f :: fs => f ++ ' ' :: joinFs fs

/-- The two-sequence output invariant: no resolved path is recorded twice,
and the path and body sequences run in parallel. -/
def Inv (st : PackState) : Prop :=
  st.objectsPaths.Nodup ∧ st.objectsPaths.length = st.objectsContents.length

/-- `st'` extends `st`: the output sequences of `st` are an initial segment
of those of `st'` (the sequences are append-only). -/
def ExtendsOut (st st' : PackState) : Prop :=
  (∃ l, st'.objectsPaths = st.objectsPaths ++ l) ∧
  (∃ l, st'.objectsContents = st.objectsContents ++ l)

/-- A resolver (as passed to the line rewriter) that preserves the output
invariant and only appends to the output sequences. -/
def GoodResolve (resolve : String → PackState → Option (String × PackState)) : Prop :=
  ∀ n st res, Inv st → resolve n st = some res → Inv res.2 ∧ ExtendsOut st res.2

/-- Fixture: an external lookup that never finds anything. -/
def api0 : String → Option String := fun _ => none

/-- Fixture: an empty filesystem. -/
def fsNone : String → Option String := fun _ => none

/-- Fixture (C1): a root document referencing `x.dat` twice, where `x.dat`
exists only under `parts/`. -/
def fs1 : String → Option String := fun p =>
  if p = "m.ldr" then
    some "1 a b c d e f g h i j k l m x.dat\n1 a b c d e f g h i j k l m x.dat"
  else if p = "parts/x.dat" then some "0 part"
  else none

/-- Fixture (C3): only the base part `3001.dat` exists, under `parts/`. -/
def fs3 : String → Option String := fun p =>
  if p = "parts/3001.dat" then some "0 brick" else none

/-- Fixture (C5): the same file name readable under both `parts/` and
`models/`. -/
def fs5 : String → Option String := fun p =>
  if p = "parts/both.dat" then some "0 from parts"
  else if p = "models/both.dat" then some "0 from models"
  else none

/-- Fixture (C9): a secondary-geometry name readable at the root-relative
path. -/
def fs9 : String → Option String := fun p =>
  if p = "48/disc.dat" then some "0 disc" else none

/-- Fixture: a resolver that never resolves (its callee is unreachable in
the uses below). -/
def resolve0 : String → PackState → Option (String × PackState) := fun _ _ => none

/-- Fixture: a resolver returning the queried name unchanged. -/
def resolveId : String → PackState → Option (String × PackState) :=
  fun n st => some (n, st)

/-- Fixture (C4): the thirteen numeric fields of a subpart reference line
(material, position, rotation matrix). -/
def c4fields : List (List Char) :=
  [['1', '6'], ['0'], ['0'], ['0'], ['1'], ['0'], ['0'], ['0'], ['1'],
   ['0'], ['0'], ['0'], ['1']]

/-! ## Basic string lemmas -/

theorem strExt {s t : String} (h : s.data = t.data) : s = t := by
  cases s; cases t; exact congrArg String.mk h

theorem strAppend_assoc (a b c : String) : a ++ b ++ c = a ++ (b ++ c) := by
  apply strExt; simp [String.data_append]

theorem strAppend_empty_left (s : String) : "" ++ s = s := by
  apply strExt; simp [String.data_append]

/-! ## Search characterization -/

theorem searchPass_hit0 {fs : String → Option String} {n c : String} (st : PackState)
    (h : fs n = some c) :
    searchPass fs st n = (recordReads st [n], some (specialPre n, c)) := by
  simp [searchPass, h]

theorem searchPass_hit1 {fs : String → Option String} {n c : String} (st : PackState)
    (h0 : fs n = none) (h1 : fs ("parts/" ++ n) = some c) :
    searchPass fs st n = (recordReads st [n, "parts/" ++ n], some ("parts/", c)) := by
  simp [searchPass, recordReads, h0, h1]

theorem searchPass_hit2 {fs : String → Option String} {n c : String} (st : PackState)
    (h0 : fs n = none) (h1 : fs ("parts/" ++ n) = none) (h2 : fs ("p/" ++ n) = some c) :
    searchPass fs st n = (recordReads st [n, "parts/" ++ n, "p/" ++ n], some ("p/", c)) := by
  simp [searchPass, recordReads, h0, h1, h2]

theorem searchPass_hit3 {fs : String → Option String} {n c : String} (st : PackState)
    (h0 : fs n = none) (h1 : fs ("parts/" ++ n) = none) (h2 : fs ("p/" ++ n) = none)
    (h3 : fs ("models/" ++ n) = some c) :
    searchPass fs st n =
      (recordReads st [n, "parts/" ++ n, "p/" ++ n, "models/" ++ n], some ("models/", c)) := by
  simp [searchPass, recordReads, h0, h1, h2, h3]

theorem searchPass_miss {fs : String → Option String} {n : String} (st : PackState)
    (h : passMiss fs n) :
    searchPass fs st n =
      (recordReads st [n, "parts/" ++ n, "p/" ++ n, "models/" ++ n], none) := by
  obtain ⟨h0, h1, h2, h3⟩ := h
  simp [searchPass, recordReads, h0, h1, h2, h3]

/-- Unfolding the fuelled resolver by one step. -/
theorem parseObject_succ (fs api : String → Option String) (fuel : Nat) (n : String)
    (r : Bool) (st : PackState) :
    parseObject fs api (fuel + 1) n r st =
      parseObjectF fs api (parseObject fs api fuel) n r st := rfl

/-- The path returned by a successful `finishFound` is the normalised
prefixed name, regardless of the body processing. -/
theorem finishFound_fst {resolve : String → PackState → Option (String × PackState)}
    {fn pre content : String} {isRoot : Bool} {st : PackState} {res : String × PackState}
    (h : finishFound resolve fn pre content isRoot st = some res) :
    res.1 = normPath (pre ++ fn) := by
  simp only [finishFound] at h
  split at h
  · exact absurd h (by simp)
  · simp only [Option.some.injEq] at h
    rw [← h]

/-- The value returned by the external lookup depends only on the query, not
on the accumulated state. -/
theorem fetchLDrawValue_fst (api : String → Option String) (st st' : PackState)
    (p : String) : (fetchLDrawValue api st p).1 = (fetchLDrawValue api st' p).1 := by
  unfold fetchLDrawValue
  cases h1 : api (jsReplaceAll "bpb" "pb" p) with
  | some v => simp [h1]
  | none =>
    cases h2 : api (addZeroLastRun (jsReplaceAll "bpb" "pb" p)) <;> simp [h1, h2]

/-- When both lookup attempts miss, `fetchLDrawValue` returns `null` and
appends the queried part id to `unsupportedParts` exactly once. -/
theorem fetchLDrawValue_miss {api : String → Option String} {p : String} (st : PackState)
    (h1 : api (jsReplaceAll "bpb" "pb" p) = none)
    (h2 : api (addZeroLastRun (jsReplaceAll "bpb" "pb" p)) = none) :
    fetchLDrawValue api st p =
      (none, { st with unsupportedParts := st.unsupportedParts ++ [p] }) := by
  simp [fetchLDrawValue, h1, h2]

/-- When both case passes of the candidate search fail for a non-root name
with a recognised extension, `parseObject` queries the external lookup once
and recurses on the resulting name. -/
theorem parseObject_fallback_step (fs api : String → Option String) (fuel : Nat)
    {n : String} (st : PackState) (hm0 : passMiss fs n) (hm1 : passMiss fs (jsToLower n))
    (hext : hasValidExtension n = true) :
    parseObject fs api (fuel + 1) n false st =
      (let partId := parseName n
       let st3 := { recordReads st
            ([n, "parts/" ++ n, "p/" ++ n, "models/" ++ n] ++
             [jsToLower n, "parts/" ++ jsToLower n, "p/" ++ jsToLower n,
              "models/" ++ jsToLower n]) with
          lookups := st.lookups ++ [partId] }
       let fr := fetchLDrawValue api st3 partId
       parseObject fs api fuel
         (match fr.1 with
          | none => jsMatchStr (firstDigitRun partId) ++ ".dat"
          | some v => v ++ ".dat") false fr.2) := by
  rw [parseObject_succ]
  simp only [parseObjectF, searchPass_miss _ hm0, searchPass_miss _ hm1, hext,
    Bool.not_false, Bool.and_self, if_true, recordReads, List.append_assoc]

/-! ## Head-character lemmas for normalised paths -/

theorem dropWhile_last {p : Char → Bool} {a : Char} (ha : p a = false) :
    ∀ l : List Char, ∃ X, (l ++ [a]).dropWhile p = X ++ [a] := by
  intro l
  induction l with
  | nil => exact ⟨[], by simp [List.dropWhile, ha]⟩
  | cons c l ih =>
    by_cases hc : p c
    · obtain ⟨X, hX⟩ := ih
      exact ⟨X, by simp [List.dropWhile, hc, hX]⟩
    · exact ⟨c :: l, by simp [List.dropWhile, hc]⟩

theorem dropTrailingWs_cons {a : Char} (ha : jsWs a = false) (cs : List Char) :
    ∃ t, dropTrailingWs (a :: cs) = a :: t := by
  obtain ⟨X, hX⟩ := dropWhile_last (p := jsWs) ha cs.reverse
  refine ⟨X.reverse, ?_⟩
  have : (a :: cs).reverse = cs.reverse ++ [a] := by simp
  simp [dropTrailingWs, this, hX]

/-- The first character of a normalised path whose source begins with a
non-whitespace character. -/
theorem normPath_data_cons {a : Char} (ha : jsWs a = false) (cs : List Char) :
    ∃ t, (normPath (String.mk (a :: cs))).data = (if a = '\\' then '/' else a) :: t := by
  have hdw : (a :: cs).dropWhile jsWs = a :: cs := by simp [List.dropWhile, ha]
  obtain ⟨t, ht⟩ := dropTrailingWs_cons ha cs
  refine ⟨t.map (fun c => if c = '\\' then '/' else c), ?_⟩
  simp only [normPath, jsTrim]
  show ((dropTrailingWs ((a :: cs).dropWhile jsWs)).map _) = _
  rw [hdw, ht]
  simp

theorem leadsWith_append {p l : List Char} (h : leadsWith p l = true) :
    ∃ t, l = p ++ t := by
  induction p generalizing l with
  | nil => exact ⟨l, rfl⟩
  | cons c p ih =>
    cases l with
    | nil => simp [leadsWith] at h
    | cons d l =>
      simp only [leadsWith, Bool.and_eq_true, decide_eq_true_eq] at h
      obtain ⟨t, ht⟩ := ih h.2
      exact ⟨t, by simp [h.1, ht]⟩

theorem jsStartsWith_data {s pre : String} (h : jsStartsWith s pre = true) :
    ∃ t, s.data = pre.data ++ t := leadsWith_append h

/-! ## Claims C5 and C9 -/

/-- C5: within a case pass, candidates are tried in the fixed priority
order — root-relative (with `48/` and `s/` names assigned their canonical
prefixes), then `parts/`, then `p/`, then `models/` — the first successful
read wins with no further read attempted, and a name readable under both
`parts/` and `models/` (the root-relative read failing) resolves under
`parts/`, with the resolver returning the `parts/`-prefixed path. -/
theorem c5_candidate_priority (fs api : String → Option String) (st : PackState)
    (n : String) :
    (∀ c, fs n = some c →
       searchPass fs st n = (recordReads st [n], some (specialPre n, c)))
  ∧ (∀ c, fs n = none → fs ("parts/" ++ n) = some c →
       searchPass fs st n = (recordReads st [n, "parts/" ++ n], some ("parts/", c)))
  ∧ (∀ c, fs n = none → fs ("parts/" ++ n) = none → fs ("p/" ++ n) = some c →
       searchPass fs st n =
         (recordReads st [n, "parts/" ++ n, "p/" ++ n], some ("p/", c)))
  ∧ (∀ c, fs n = none → fs ("parts/" ++ n) = none → fs ("p/" ++ n) = none →
       fs ("models/" ++ n) = some c →
       searchPass fs st n =
         (recordReads st [n, "parts/" ++ n, "p/" ++ n, "models/" ++ n],
          some ("models/", c)))
  ∧ (passMiss fs n →
       searchPass fs st n =
         (recordReads st [n, "parts/" ++ n, "p/" ++ n, "models/" ++ n], none))
  ∧ (∀ c res fuel isRoot, fs n = none → fs ("parts/" ++ n) = some c →
       parseObject fs api (fuel + 1) n isRoot st = some res →
       res.1 = normPath ("parts/" ++ n)) := by
  refine ⟨fun c h => searchPass_hit0 st h,
          fun c h0 h1 => searchPass_hit1 st h0 h1,
          fun c h0 h1 h2 => searchPass_hit2 st h0 h1 h2,
          fun c h0 h1 h2 h3 => searchPass_hit3 st h0 h1 h2 h3,
          fun h => searchPass_miss st h, ?_⟩
  intro c res fuel isRoot h0 h1 hp
  rw [parseObject_succ] at hp
  simp only [parseObjectF, searchPass_hit1 st h0 h1] at hp
  exact finishFound_fst hp

/-- C5 witness: with `both.dat` present under both `parts/` and `models/`
and absent at the root-relative path, the search reads only the
root-relative and `parts/` candidates and selects `parts/`. -/
theorem c5_witness :
    searchPass fs5 initialState "both.dat" =
      (recordReads initialState ["both.dat", "parts/both.dat"],
       some ("parts/", "0 from parts")) :=
  (c5_candidate_priority fs5 api0 initialState "both.dat").2.1 "0 from parts" rfl rfl

/-- C9: for a name with the `48/` (resp. `s/`) marker, a successful first
candidate reads exactly the root-relative path — the canonical prefix
`p/` (resp. `parts/`) qualifies only the returned path, which therefore
names a location that was never read — and the resolver returns that
prefixed, never-read path. -/
theorem c9_special_case_read (fs api : String → Option String) (st : PackState)
    (n c : String) (fuel : Nat) (isRoot : Bool) :
    (jsStartsWith n "48/" = true → fs n = some c →
       searchPass fs st n = (recordReads st [n], some ("p/", c)) ∧
       normPath ("p/" ++ n) ≠ n)
  ∧ (jsStartsWith n "s/" = true → fs n = some c →
       searchPass fs st n = (recordReads st [n], some ("parts/", c)) ∧
       normPath ("parts/" ++ n) ≠ n)
  ∧ (∀ res, jsStartsWith n "48/" = true → fs n = some c →
       parseObject fs api (fuel + 1) n isRoot st = some res →
       res.1 = normPath ("p/" ++ n)) := by
  refine ⟨?_, ?_, ?_⟩
  · intro h48 hc
    constructor
    · rw [searchPass_hit0 st hc]
      simp [specialPre, h48]
    · obtain ⟨t, ht⟩ := jsStartsWith_data h48
      obtain ⟨t', ht'⟩ := normPath_data_cons (a := 'p') (by decide) ('/' :: n.data)
      intro heq
      have hd : (normPath ("p/" ++ n)).data = n.data := congrArg String.data heq
      have hpn : ("p/" ++ n : String) = String.mk ('p' :: '/' :: n.data) := by
        apply strExt; rw [String.data_append]; rfl
      rw [hpn, ht', ht] at hd
      rw [show ("48/" : String).data = ['4', '8', '/'] from rfl] at hd
      simp at hd
  · intro hs hc
    have h48 : jsStartsWith n "48/" = false := by
      cases hh : jsStartsWith n "48/"
      · rfl
      · obtain ⟨t1, ht1⟩ := jsStartsWith_data hh
        obtain ⟨t2, ht2⟩ := jsStartsWith_data hs
        rw [ht2] at ht1
        rw [show ("s/" : String).data = ['s', '/'] from rfl,
            show ("48/" : String).data = ['4', '8', '/'] from rfl] at ht1
        simp at ht1
    constructor
    · rw [searchPass_hit0 st hc]
      simp [specialPre, h48, hs]
    · obtain ⟨t, ht⟩ := jsStartsWith_data hs
      obtain ⟨t', ht'⟩ := normPath_data_cons (a := 'p') (by decide) ("arts/".data ++ n.data)
      intro heq
      have hd : (normPath ("parts/" ++ n)).data = n.data := congrArg String.data heq
      have hpn : ("parts/" ++ n : String) = String.mk ('p' :: ("arts/".data ++ n.data)) := by
        apply strExt; rw [String.data_append]; rfl
      rw [hpn, ht', ht] at hd
      rw [show ("s/" : String).data = ['s', '/'] from rfl] at hd
      simp at hd
  · intro res h48 hc hp
    rw [parseObject_succ] at hp
    have hsp : searchPass fs st n = (recordReads st [n], some ("p/", c)) := by
      rw [searchPass_hit0 st hc]
      simp [specialPre, h48]
    simp only [parseObjectF, hsp] at hp
    exact finishFound_fst hp

/-- C9 witness: `48/disc.dat` is readable root-relatively; the search reads
only that path yet reports prefix `p/`, and the resolver returns
`p/48/disc.dat`, a path that was never read. -/
theorem c9_witness :
    (searchPass fs9 initialState "48/disc.dat" =
       (recordReads initialState ["48/disc.dat"], some ("p/", "0 disc")) ∧
     normPath ("p/" ++ "48/disc.dat") ≠ "48/disc.dat") ∧
    ∀ res, parseObject fs9 api0 1 "48/disc.dat" false initialState = some res →
      res.1 = normPath ("p/" ++ "48/disc.dat") := by
  constructor
  · exact (c9_special_case_read fs9 api0 initialState "48/disc.dat" "0 disc" 0 false).1
      (by decide) rfl
  · intro res h
    exact (c9_special_case_read fs9 api0 initialState "48/disc.dat" "0 disc" 0 false).2.2
      res (by decide) rfl h

/-! ## Claims C3 and C10 (fallback degrade) -/

theorem dropWhile_all {p : Char → Bool} :
    ∀ l : List Char, (∀ c ∈ l, p c = true) → l.dropWhile p = []
  | [], _ => rfl
  | c :: l, h => by
    simp only [List.dropWhile, h c (by simp)]
    exact dropWhile_all l (fun x hx => h x (by simp [hx]))

theorem firstDigitRun_none {s : String} (h : ∀ c ∈ s.data, c.isDigit = false) :
    firstDigitRun s = none := by
  unfold firstDigitRun
  rw [dropWhile_all s.data (fun c hc => by simp [h c hc])]

/-- C3 counterexample: for `3001pr0001.dat` (local search and external
lookup both miss, `parts/3001.dat` readable) the resolver degrades to the
first digit run `3001`, resolving to `parts/3001.dat`; the spec's "longest
trailing digit run" rule would give `0001.dat`, a name this run never
attempts to read. -/
theorem c3_first_run_counterexample :
    (parseObject fs3 api0 2 "3001pr0001.dat" false initialState).map Prod.fst =
        some "parts/3001.dat"
    ∧ specTrailingDigitRun "3001pr0001" ++ ".dat" = "0001.dat"
    ∧ (parseObject fs3 api0 2 "3001pr0001.dat" false initialState).map
        (fun r => r.2.reads.contains "3001.dat") = some true
    ∧ (parseObject fs3 api0 2 "3001pr0001.dat" false initialState).map
        (fun r => (r.2.reads.contains "0001.dat", r.2.reads.contains "parts/0001.dat",
                   r.2.reads.contains "p/0001.dat", r.2.reads.contains "models/0001.dat")) =
        some (false, false, false, false)
    ∧ (parseObject fs3 api0 2 "3001pr0001.dat" false initialState).map
        (fun r => r.2.unsupportedParts) = some ["3001pr0001"] := by
  refine ⟨by decide, by decide, by decide, by decide, by decide⟩

/-- C3 (amended): when the candidate search fails in both case passes for a
non-root reference with a recognised extension and both external-lookup
attempts miss, the degraded default identifier submitted for re-resolution
is the first maximal digit run of the reference's basename stem plus
`.dat`, and the stem is appended to the Unsupported-Reference List exactly
once by that miss. -/
theorem c3_fallback_degrade (fs api : String → Option String) (fuel : Nat)
    {n : String} (st : PackState) (hm0 : passMiss fs n)
    (hm1 : passMiss fs (jsToLower n)) (hext : hasValidExtension n = true)
    (ha1 : api (jsReplaceAll "bpb" "pb" (parseName n)) = none)
    (ha2 : api (addZeroLastRun (jsReplaceAll "bpb" "pb" (parseName n))) = none) :
    parseObject fs api (fuel + 1) n false st =
      parseObject fs api fuel
        (jsMatchStr (firstDigitRun (parseName n)) ++ ".dat") false
        { recordReads st
            [n, "parts/" ++ n, "p/" ++ n, "models/" ++ n,
             jsToLower n, "parts/" ++ jsToLower n, "p/" ++ jsToLower n,
             "models/" ++ jsToLower n] with
          lookups := st.lookups ++ [parseName n],
          unsupportedParts := st.unsupportedParts ++ [parseName n] } := by
  rw [parseObject_fallback_step fs api fuel st hm0 hm1 hext]
  simp only [fetchLDrawValue_miss _ ha1 ha2, recordReads, List.cons_append,
    List.nil_append]

/-- C3 witness: the amended rule applied to `3001pr0001.dat` over the C3
fixture: the recursion target is `3001.dat` and `3001pr0001` is recorded
once. -/
theorem c3_witness :
    parseObject fs3 api0 2 "3001pr0001.dat" false initialState =
      parseObject fs3 api0 1
        (jsMatchStr (firstDigitRun (parseName "3001pr0001.dat")) ++ ".dat") false
        { recordReads initialState
            ["3001pr0001.dat", "parts/" ++ "3001pr0001.dat", "p/" ++ "3001pr0001.dat",
             "models/" ++ "3001pr0001.dat", jsToLower "3001pr0001.dat",
             "parts/" ++ jsToLower "3001pr0001.dat", "p/" ++ jsToLower "3001pr0001.dat",
             "models/" ++ jsToLower "3001pr0001.dat"] with
          lookups := initialState.lookups ++ [parseName "3001pr0001.dat"],
          unsupportedParts := initialState.unsupportedParts ++ [parseName "3001pr0001.dat"] } :=
  c3_fallback_degrade fs3 api0 1 initialState
    ⟨rfl, rfl, rfl, rfl⟩ ⟨rfl, rfl, rfl, rfl⟩ (by decide) rfl rfl

/-- C10: for a non-root reference with a recognised extension whose basename
stem contains no decimal digit, when local search and both external-lookup
attempts fail, the degraded default file name submitted for re-resolution is
the literal string `null.dat` (the string coercion of the failed regex
match, concatenated with `.dat`). -/
theorem c10_null_dat_degrade (fs api : String → Option String) (fuel : Nat)
    {n : String} (st : PackState) (hm0 : passMiss fs n)
    (hm1 : passMiss fs (jsToLower n)) (hext : hasValidExtension n = true)
    (hnd : ∀ c ∈ (parseName n).data, c.isDigit = false)
    (ha1 : api (jsReplaceAll "bpb" "pb" (parseName n)) = none)
    (ha2 : api (addZeroLastRun (jsReplaceAll "bpb" "pb" (parseName n))) = none) :
    parseObject fs api (fuel + 1) n false st =
      parseObject fs api fuel "null.dat" false
        { recordReads st
            [n, "parts/" ++ n, "p/" ++ n, "models/" ++ n,
             jsToLower n, "parts/" ++ jsToLower n, "p/" ++ jsToLower n,
             "models/" ++ jsToLower n] with
          lookups := st.lookups ++ [parseName n],
          unsupportedParts := st.unsupportedParts ++ [parseName n] } := by
  rw [parseObject_fallback_step fs api fuel st hm0 hm1 hext]
  simp only [fetchLDrawValue_miss _ ha1 ha2, firstDigitRun_none hnd, recordReads,
    List.cons_append, List.nil_append]
  rfl

/-- C10 witness: `abc.dat` (digit-free stem) over the empty filesystem and
the always-missing lookup degrades to the literal `null.dat`. -/
theorem c10_witness :
    parseObject fsNone api0 2 "abc.dat" false initialState =
      parseObject fsNone api0 1 "null.dat" false
        { recordReads initialState
            ["abc.dat", "parts/" ++ "abc.dat", "p/" ++ "abc.dat",
             "models/" ++ "abc.dat", jsToLower "abc.dat",
             "parts/" ++ jsToLower "abc.dat", "p/" ++ jsToLower "abc.dat",
             "models/" ++ jsToLower "abc.dat"] with
          lookups := initialState.lookups ++ [parseName "abc.dat"],
          unsupportedParts := initialState.unsupportedParts ++ [parseName "abc.dat"] } :=
  c10_null_dat_degrade fsNone api0 1 initialState
    ⟨rfl, rfl, rfl, rfl⟩ ⟨rfl, rfl, rfl, rfl⟩ (by decide) (by decide) rfl rfl

/-! ## Claim C1 (dedup / determinism) -/

/-- The outcome of a case pass does not depend on the accumulated state. -/
theorem searchPass_snd (fs : String → Option String) (st : PackState) (n : String) :
    (searchPass fs st n).2 = searchFind fs n := by
  cases h0 : fs n <;> cases h1 : fs ("parts/" ++ n) <;> cases h2 : fs ("p/" ++ n) <;>
    cases h3 : fs ("models/" ++ n) <;> simp [searchPass, searchFind, h0, h1, h2, h3]

/-- C1 counterexample: in the two-parent fixture the reference `x.dat`
(resolved path `parts/x.dat`) is read from storage twice — the cache is
keyed by the resolved path, so the second raw reference misses it — even
though both rewritten parent lines carry the identical resolved path and
the body is embedded once. -/
theorem c1_read_twice_counterexample :
    (parseObject fs1 api0 3 "m.ldr" true initialState).map
        (fun r => r.2.reads.count "parts/x.dat") = some 2
    ∧ (parseObject fs1 api0 3 "m.ldr" true initialState).map
        (fun r => r.2.objectsPaths) = some ["parts/x.dat", "m.ldr"]
    ∧ (parseObject fs1 api0 3 "m.ldr" true initialState).map
        (fun r => r.2.objectsContents) =
        some ["0 FILE parts/x.dat\n0 part\n",
              "1 a b c d e f g h i j k l m parts/x.dat\n1 a b c d e f g h i j k l m parts/x.dat\n"] := by
  refine ⟨by decide, by decide, by decide⟩

/-- C1 (amended): the resolved path returned by `parseObject` depends only
on the filesystem, the lookup service, the name, the root flag and the
fuel — never on the accumulated cache/output state.  Hence any two parents
that re-resolve the same reference name obtain the identical Resolved Path
(and, by C8's invariant, its body is embedded at most once), although the
file content may be read once per parent rather than at most once. -/
theorem c1_resolved_path_deterministic (fs api : String → Option String) :
    ∀ (fuel : Nat) (n : String) (isRoot : Bool) (st₁ st₂ : PackState)
      (res₁ res₂ : String × PackState),
      parseObject fs api fuel n isRoot st₁ = some res₁ →
      parseObject fs api fuel n isRoot st₂ = some res₂ →
      res₁.1 = res₂.1 := by
  intro fuel
  induction fuel with
  | zero =>
    intro n r st₁ st₂ res₁ res₂ h₁ _
    exact absurd h₁ (by simp [parseObject])
  | succ fuel ih =>
    intro n r st₁ st₂ res₁ res₂ h₁ h₂
    rw [parseObject_succ] at h₁ h₂
    unfold parseObjectF at h₁ h₂
    simp only [searchPass_snd] at h₁ h₂
    cases hf : searchFind fs n with
    | some pc =>
      obtain ⟨pre, content⟩ := pc
      simp only [hf] at h₁ h₂
      rw [finishFound_fst h₁, finishFound_fst h₂]
    | none =>
      simp only [hf] at h₁ h₂
      cases hf2 : searchFind fs (jsToLower n) with
      | some pc =>
        obtain ⟨pre, content⟩ := pc
        simp only [hf2] at h₁ h₂
        rw [finishFound_fst h₁, finishFound_fst h₂]
      | none =>
        simp only [hf2] at h₁ h₂
        by_cases hb : (!r && hasValidExtension n) = true
        · rw [if_pos hb] at h₁ h₂
          rw [fetchLDrawValue_fst api
                { (searchPass fs (searchPass fs st₁ n).1 (jsToLower n)).1 with
                  lookups := (searchPass fs (searchPass fs st₁ n).1 (jsToLower n)).1.lookups ++
                    [parseName n] }
                { (searchPass fs (searchPass fs st₂ n).1 (jsToLower n)).1 with
                  lookups := (searchPass fs (searchPass fs st₂ n).1 (jsToLower n)).1.lookups ++
                    [parseName n] }
                (parseName n)] at h₁
          exact ih _ false _ _ _ _ h₁ h₂
        · rw [if_neg hb] at h₁ h₂
          simp only [Option.some.injEq] at h₁ h₂
          rw [← h₁, ← h₂]

/-- C1 witness: resolving `x.dat` over the C1 fixture from two different
accumulated states returns the same resolved path `parts/x.dat`. -/
theorem c1_witness :
    (("parts/x.dat",
      (⟨[], ["parts/x.dat"], ["0 FILE parts/x.dat\n0 part\n"], [],
        ["x.dat", "parts/x.dat"], []⟩ : PackState)) : String × PackState).1 =
    (("parts/x.dat",
      (⟨[], ["parts/x.dat"], ["0 FILE parts/x.dat\n0 part\n"], [],
        ["seen", "x.dat", "parts/x.dat"], []⟩ : PackState)) : String × PackState).1 :=
  c1_resolved_path_deterministic fs1 api0 2 "x.dat" false initialState
    (recordReads initialState ["seen"])
    ("parts/x.dat",
      ⟨[], ["parts/x.dat"], ["0 FILE parts/x.dat\n0 part\n"], [],
        ["x.dat", "parts/x.dat"], []⟩)
    ("parts/x.dat",
      ⟨[], ["parts/x.dat"], ["0 FILE parts/x.dat\n0 part\n"], [],
        ["seen", "x.dat", "parts/x.dat"], []⟩)
    (by decide) (by decide)

/-! ## Claim C2 (root not found) -/

/-- C2 counterexample: with an empty filesystem the root cannot be read
anywhere, yet the run does not abort — the packed output is still produced
and consists of the materials header alone. -/
theorem c2_output_written_counterexample :
    (packLDrawModel fsNone api0 1 "0 mat" "root.ldr").isSome = true
    ∧ (packLDrawModel fsNone api0 1 "0 mat" "root.ldr").map Prod.fst =
        some "0 mat\n\n" := by
  refine ⟨by decide, by decide⟩

/-- C2 (amended): if the root document cannot be read under any candidate
location in either case pass, the run does not abort: root resolution
returns the normalised lowercased name without invoking the External
Identifier Fallback (the state changes only by the eight read attempts —
no lookup, no unsupported entry, no embedded body), and the packed output
is still written, consisting of the materials header alone. -/
theorem c2_root_not_found_no_abort (fs api : String → Option String) (fuel : Nat)
    (n mat : String) (st : PackState) (hm0 : passMiss fs n)
    (hm1 : passMiss fs (jsToLower n)) :
    parseObject fs api (fuel + 1) n true st =
      some (normPath (jsToLower n),
        recordReads st
          [n, "parts/" ++ n, "p/" ++ n, "models/" ++ n,
           jsToLower n, "parts/" ++ jsToLower n, "p/" ++ jsToLower n,
           "models/" ++ jsToLower n])
    ∧ packLDrawModel fs api (fuel + 1) mat n =
        some (mat ++ "\n" ++ "" ++ "\n",
          recordReads initialState
            [n, "parts/" ++ n, "p/" ++ n, "models/" ++ n,
             jsToLower n, "parts/" ++ jsToLower n, "p/" ++ jsToLower n,
             "models/" ++ jsToLower n]) := by
  have main : ∀ st' : PackState, parseObject fs api (fuel + 1) n true st' =
      some (normPath (jsToLower n),
        recordReads st'
          [n, "parts/" ++ n, "p/" ++ n, "models/" ++ n,
           jsToLower n, "parts/" ++ jsToLower n, "p/" ++ jsToLower n,
           "models/" ++ jsToLower n]) := by
    intro st'
    rw [parseObject_succ]
    unfold parseObjectF
    simp only [searchPass_miss st' hm0, searchPass_miss _ hm1, recordReads,
      List.append_assoc, List.cons_append, List.nil_append]
    simp
  refine ⟨main st, ?_⟩
  unfold packLDrawModel
  rw [main initialState]
  rfl

/-- C2 witness: the amended statement at the empty filesystem. -/
theorem c2_witness :
    parseObject fsNone api0 1 "root.ldr" true initialState =
      some (normPath (jsToLower "root.ldr"),
        recordReads initialState
          ["root.ldr", "parts/" ++ "root.ldr", "p/" ++ "root.ldr",
           "models/" ++ "root.ldr", jsToLower "root.ldr",
           "parts/" ++ jsToLower "root.ldr", "p/" ++ jsToLower "root.ldr",
           "models/" ++ jsToLower "root.ldr"])
    ∧ packLDrawModel fsNone api0 1 "0 mat" "root.ldr" =
        some ("0 mat" ++ "\n" ++ "" ++ "\n",
          recordReads initialState
            ["root.ldr", "parts/" ++ "root.ldr", "p/" ++ "root.ldr",
             "models/" ++ "root.ldr", jsToLower "root.ldr",
             "parts/" ++ jsToLower "root.ldr", "p/" ++ jsToLower "root.ldr",
             "models/" ++ jsToLower "root.ldr"]) :=
  c2_root_not_found_no_abort fsNone api0 0 "root.ldr" "0 mat" initialState
    ⟨rfl, rfl, rfl, rfl⟩ ⟨rfl, rfl, rfl, rfl⟩

/-! ## Claim C7 (plain line passthrough) -/

/-- C7 counterexample: a Plain line with leading whitespace does not pass
through unmodified — its leading tab is stripped. -/
theorem c7_leading_ws_counterexample :
    processLineStep resolve0 1 "\t0 hi" initialState = some ("0 hi\n", initialState)
    ∧ ("0 hi\n" : String) ≠ "\t0 hi" ++ "\n" := by
  refine ⟨by decide, by decide⟩

/-- C7 (amended): every line that, after stripping leading spaces/tabs, is
neither a file-boundary directive nor a subpart reference passes through to
the rewritten body as the stripped line with a trailing newline restored,
leaving the state untouched (carriage-return/newline pairs having been
normalised document-wide before the split). -/
theorem c7_plain_passthrough (resolve : String → PackState → Option (String × PackState))
    (i : Nat) (raw : String) (st : PackState)
    (h0 : jsStartsWith (stripLeading raw) "0 FILE " = false)
    (h1 : jsStartsWith (stripLeading raw) "1 " = false) :
    processLineStep resolve i raw st = some (stripLeading raw ++ "\n", st) := by
  unfold processLineStep
  simp only [h0, h1, Bool.false_eq_true, if_false]

/-- C7 witness: a comment line with a leading space passes through stripped,
with its newline restored. -/
theorem c7_witness :
    processLineStep resolve0 2 " 0 plain comment" initialState =
      some (stripLeading " 0 plain comment" ++ "\n", initialState) :=
  c7_plain_passthrough resolve0 2 " 0 plain comment" initialState (by decide) (by decide)

/-! ## Claim C4 (field skipping) -/

theorem takeWhile_app_all {p : Char → Bool} {f : List Char}
    (hf : ∀ c ∈ f, p c = true) (r : List Char) :
    (f ++ r).takeWhile p = f ++ r.takeWhile p := by
  induction f with
  | nil => rfl
  | cons c cs ih =>
    have h2 := ih (fun x hx => hf x (by simp [hx]))
    simp only [List.cons_append, List.takeWhile, hf c (by simp), if_true,
      List.append_eq]
    rw [h2]

theorem dropWhile_app_all {p : Char → Bool} {f : List Char}
    (hf : ∀ c ∈ f, p c = true) (r : List Char) :
    (f ++ r).dropWhile p = r.dropWhile p := by
  induction f with
  | nil => rfl
  | cons c cs ih =>
    have h2 := ih (fun x hx => hf x (by simp [hx]))
    simp only [List.cons_append, List.dropWhile, hf c (by simp), if_true,
      List.append_eq]
    rw [h2]

theorem headNotWs_take {cs : List Char} (h : headNotWs cs = true) :
    cs.takeWhile isSpaceTab = [] := by
  cases cs with
  | nil => rfl
  | cons c cs =>
    simp only [headNotWs, Bool.not_eq_true'] at h
    simp [List.takeWhile, h]

theorem headNotWs_drop {cs : List Char} (h : headNotWs cs = true) :
    cs.dropWhile isSpaceTab = cs := by
  cases cs with
  | nil => rfl
  | cons c cs =>
    simp only [headNotWs, Bool.not_eq_true'] at h
    simp [List.dropWhile, h]

/-- Skipping one field: a non-empty whitespace-free token followed by a
single space and a remainder that does not begin with whitespace. -/
theorem skipFields_cons {f rest : List Char} (k : Nat) (hne : f ≠ [])
    (hf : ∀ c ∈ f, isSpaceTab c = false) (hr : headNotWs rest = true) :
    skipFields (k + 1) (f ++ ' ' :: rest) =
      (f ++ ' ' :: (skipFields k rest).1, (skipFields k rest).2) := by
  have hf' : ∀ c ∈ f, (fun c => !isSpaceTab c) c = true := fun c hc => by
    simp [hf c hc]
  have hemp : (f ++ ' ' :: rest).isEmpty = false := by
    cases f with
    | nil => exact absurd rfl hne
    | cons c cs => rfl
  have htok : (f ++ ' ' :: rest).takeWhile (fun c => !isSpaceTab c) = f := by
    rw [takeWhile_app_all hf']
    simp [List.takeWhile, isSpaceTab]
  have hr1 : (f ++ ' ' :: rest).dropWhile (fun c => !isSpaceTab c) = ' ' :: rest := by
    rw [dropWhile_app_all hf']
    simp [List.dropWhile, isSpaceTab]
  have hws : (' ' :: rest).takeWhile isSpaceTab = [' '] := by
    simp [List.takeWhile, isSpaceTab, headNotWs_take hr]
  have hr2 : (' ' :: rest).dropWhile isSpaceTab = rest := by
    simp [List.dropWhile, isSpaceTab, headNotWs_drop hr]
  rw [skipFields]
  rw [if_neg (by simp [hemp])]
  simp only [htok, hr1, hws, hr2]
  cases hsk : skipFields k rest with
  | mk pre r' => simp [hsk]

/-- `joinWith fields rest` begins with a non-whitespace character whenever
the fields are well-formed and `rest` does. -/
theorem headNotWs_joinWith {fields : List (List Char)} {rest : List Char}
    (hw : wfFields fields) (hr : headNotWs rest = true) :
    headNotWs (joinWith fields rest) = true := by
  cases fields with
  | nil => exact hr
  | cons f fs =>
    obtain ⟨hne, hchars⟩ := hw f (by simp)
    cases f with
    | nil => exact absurd rfl hne
    | cons c cs =>
      simp only [joinWith, List.cons_append, headNotWs, Bool.not_eq_true']
      exact hchars c (by simp)

/-- Skipping exactly `fields.length` fields over a line made of those
fields (each followed by one space) and a trailing remainder consumes
exactly the fields and their separators. -/
theorem skipFields_joinWith :
    ∀ (fields : List (List Char)) (rest : List Char), wfFields fields →
      headNotWs rest = true →
      skipFields fields.length (joinWith fields rest) = (joinWith fields [], rest)
  | [], rest, _, _ => rfl
  | f :: fs, rest, hw, hr => by
    obtain ⟨hne, hchars⟩ := hw f (by simp)
    have hfs : wfFields fs := fun g hg => hw g (by simp [hg])
    have hjr : headNotWs (joinWith fs rest) = true := headNotWs_joinWith hfs hr
    show skipFields (fs.length + 1) (f ++ ' ' :: joinWith fs rest) = _
    rw [skipFields_cons fs.length hne hchars hjr,
        skipFields_joinWith fs rest hfs hr]
    rfl

/-- `joinFs fields` begins with a non-whitespace character whenever the
fields are well-formed. -/
theorem headNotWs_joinFs {fields : List (List Char)} (hw : wfFields fields) :
    headNotWs (joinFs fields) = true := by
  cases fields with
  | nil => rfl
  | cons f fs =>
    obtain ⟨hne, hchars⟩ := hw f (by simp)
    cases f with
    | nil => exact absurd rfl hne
    | cons c cs =>
      cases fs with
      | nil =>
        simp only [joinFs, headNotWs, Bool.not_eq_true']
        exact hchars c (by simp)
      | cons g gs =>
        simp only [joinFs, List.cons_append, headNotWs, Bool.not_eq_true']
        exact hchars c (by simp)

/-- Skipping at least as many fields as a separator-joined line holds
consumes the whole line. -/
theorem skipFields_joinFs :
    ∀ (fields : List (List Char)) (k : Nat), fields.length ≤ k → wfFields fields →
      skipFields k (joinFs fields) = (joinFs fields, [])
  | [], k, _, _ => by cases k <;> rfl
  | [f], k, hk, hw => by
    obtain ⟨k, rfl⟩ : ∃ k', k = k' + 1 := by
      cases k with
      | zero => simp at hk
      | succ k => exact ⟨k, rfl⟩
    obtain ⟨hne, hchars⟩ := hw f (by simp)
    have hf' : ∀ c ∈ f, (fun c => !isSpaceTab c) c = true := fun c hc => by
      simp [hchars c hc]
    have hemp : (joinFs [f]).isEmpty = false := by
      show f.isEmpty = false
      cases f with
      | nil => exact absurd rfl hne
      | cons c cs => rfl
    have htok : f.takeWhile (fun c => !isSpaceTab c) = f := by
      have := takeWhile_app_all hf' []
      simpa using this
    have hdrop : f.dropWhile (fun c => !isSpaceTab c) = [] := by
      have := dropWhile_app_all hf' []
      simpa using this
    show skipFields (k + 1) f = (f, [])
    rw [skipFields, if_neg (by simpa using hemp), htok, hdrop]
    cases k <;> simp [skipFields]
  | f :: g :: fs, k, hk, hw => by
    obtain ⟨k, rfl⟩ : ∃ k', k = k' + 1 := by
      cases k with
      | zero => simp at hk
      | succ k => exact ⟨k, rfl⟩
    obtain ⟨hne, hchars⟩ := hw f (by simp)
    have hgfs : wfFields (g :: fs) := fun x hx => hw x (by simp [hx])
    have hjh : headNotWs (joinFs (g :: fs)) = true := headNotWs_joinFs hgfs
    show skipFields (k + 1) (f ++ ' ' :: joinFs (g :: fs)) = _
    rw [skipFields_cons k hne hchars hjh,
        skipFields_joinFs (g :: fs) k (by simpa using hk) hgfs]
    rfl

/-- A string starting with a non-whitespace character is untouched by the
leading strip. -/
theorem stripLeading_cons {a : Char} (ha : isSpaceTab a = false) (cs : List Char) :
    stripLeading (String.mk (a :: cs)) = String.mk (a :: cs) := by
  simp [stripLeading, List.dropWhile, ha]

/-- C4 counterexample: a subpart-reference line with fewer than 13 fields
after the token is dropped from the rewritten body entirely (the emitted
text is empty), not passed through unresolved. -/
theorem c4_short_line_dropped_counterexample :
    processLineStep resolve0 4 "1 2 3" initialState = some ("", initialState)
    ∧ ("" : String) ≠ "1 2 3" ++ "\n" := by
  refine ⟨by decide, by decide⟩

/-- C4 (amended): on a line `1 ` + fields, when fewer than 13 well-formed
fields follow the token the reference name is empty, nothing is resolved,
and the line contributes nothing to the rewritten body; with exactly 13
fields and a trailing name, only the trailing name is rewritten to the
resolved path, the token and all 13 fields being preserved byte-for-byte. -/
theorem c4_field_skip (resolve : String → PackState → Option (String × PackState))
    (i : Nat) (st : PackState) :
    (∀ fields : List (List Char), fields.length < 13 → wfFields fields →
       processLineStep resolve i (String.mk ('1' :: ' ' :: joinFs fields)) st =
         some ("", st))
  ∧ (∀ (fields : List (List Char)) (name : List Char) (p : String) (st' : PackState),
       fields.length = 13 → wfFields fields → headNotWs name = true →
       normPath (String.mk name) ≠ "" →
       truthy (mapLookup st.pathMap (normPath (String.mk name))) = false →
       resolve (normPath (String.mk name)) st = some (p, st') →
       processLineStep resolve i (String.mk ('1' :: ' ' :: joinWith fields name)) st =
         some (String.mk ('1' :: ' ' :: joinWith fields []) ++ p ++ "\n",
               { st' with pathMap := mapInsert st'.pathMap p p })) := by
  constructor
  · intro fields hlen hw
    have hstrip := stripLeading_cons (a := '1') (by decide) (' ' :: joinFs fields)
    have h0 : jsStartsWith (String.mk ('1' :: ' ' :: joinFs fields)) "0 FILE " = false := by
      simp [jsStartsWith, leadsWith]
    have h1 : jsStartsWith (String.mk ('1' :: ' ' :: joinFs fields)) "1 " = true := by
      simp [jsStartsWith, leadsWith]
    have hskip : skipFields 13 (joinFs fields) = (joinFs fields, []) :=
      skipFields_joinFs fields 13 (Nat.le_of_lt hlen) hw
    have hempty : normPath (String.mk ([] : List Char)) = "" := rfl
    unfold processLineStep
    rw [hstrip]
    simp [h0, h1, hskip, hempty]
  · intro fields name p st' hlen hw hname hnorm hcache hres
    have hstrip := stripLeading_cons (a := '1') (by decide) (' ' :: joinWith fields name)
    have h0 : jsStartsWith (String.mk ('1' :: ' ' :: joinWith fields name)) "0 FILE " = false := by
      simp [jsStartsWith, leadsWith]
    have h1 : jsStartsWith (String.mk ('1' :: ' ' :: joinWith fields name)) "1 " = true := by
      simp [jsStartsWith, leadsWith]
    have hskip : skipFields 13 (joinWith fields name) = (joinWith fields [], name) := by
      have h := skipFields_joinWith fields name hw hname
      rw [hlen] at h
      exact h
    unfold processLineStep
    rw [hstrip]
    simp [h0, h1, hskip, hnorm, hcache, hres]

/-- C4 witness: a 13-field reference line with name `x.dat`, resolved by the
identity resolver, rewrites only the name and preserves the fields. -/
theorem c4_witness :
    processLineStep resolveId 3 (String.mk ('1' :: ' ' :: joinWith c4fields "x.dat".data))
        initialState =
      some (String.mk ('1' :: ' ' :: joinWith c4fields []) ++ "x.dat" ++ "\n",
            { initialState with pathMap := mapInsert initialState.pathMap "x.dat" "x.dat" }) :=
  (c4_field_skip resolveId 3 initialState).2 c4fields "x.dat".data "x.dat" initialState
    (by decide) (by unfold wfFields; decide) (by decide) (by decide) (by decide) rfl

/-! ## Claim C6 (boundary suppression) -/

theorem strAppend_empty_right (s : String) : s ++ "" = s := by
  apply strExt; simp [String.data_append]

/-- The body accumulator only ever collects emitted text on the right: the
rewriting loop started on accumulator `a` equals the loop started empty with
`a` prepended. -/
theorem processLinesAux_acc (resolve : String → PackState → Option (String × PackState))
    (lines : List String) :
    ∀ (i : Nat) (a : String) (st : PackState),
      processLinesAux resolve lines i a st =
        (processLinesAux resolve lines i "" st).map (fun r => (a ++ r.1, r.2)) := by
  induction lines with
  | nil => intro i a st; simp [processLinesAux, strAppend_empty_right]
  | cons l rest ih =>
    intro i a st
    unfold processLinesAux
    cases h : processLineStep resolve i l st with
    | none => simp
    | some es =>
      obtain ⟨e, st'⟩ := es
      simp only []
      rw [ih (i + 1) (a ++ e) st', ih (i + 1) ("" ++ e) st']
      cases processLinesAux resolve rest (i + 1) "" st' with
      | none => simp
      | some r => simp [strAppend_assoc, strAppend_empty_left]

/-- C6: a file-boundary directive on the very first line of any document is
suppressed entirely (nothing emitted, state untouched); and every rewritten
body is the line-processed text prefixed, for non-root documents only, by
exactly one synthesized `0 FILE` line carrying the document's own resolved
path — the root body gets no such prefix. -/
theorem c6_boundary_suppression
    (resolve : String → PackState → Option (String × PackState))
    (fn pre content : String) (st : PackState) :
    (∀ raw st₀, jsStartsWith (stripLeading raw) "0 FILE " = true →
       processLineStep resolve 0 raw st₀ = some ("", st₀))
  ∧ (∀ isRoot res, finishFound resolve fn pre content isRoot st = some res →
       res.1 = normPath (pre ++ fn) ∧
       ∃ tail st₂,
         processLinesAux resolve
             ((splitNl (jsReplaceAll "\r\n" "\n" content).data).map String.mk) 0 "" st =
           some (tail, st₂) ∧
         res.2.objectsContents =
           (if st₂.objectsPaths.contains res.1 then st₂.objectsContents
            else st₂.objectsContents ++
              [(if isRoot then "" else "0 FILE " ++ res.1 ++ "\n") ++ tail])) := by
  constructor
  · intro raw st₀ h
    unfold processLineStep
    simp [h]
  · intro isRoot res h
    simp only [finishFound] at h
    rw [processLinesAux_acc] at h
    cases hp : processLinesAux resolve
        ((splitNl (jsReplaceAll "\r\n" "\n" content).data).map String.mk) 0 "" st with
    | none => rw [hp] at h; simp at h
    | some r =>
      obtain ⟨tail, st₂⟩ := r
      rw [hp] at h
      simp only [Option.map_some'] at h
      simp only [Option.some.injEq] at h
      refine ⟨by rw [← h], tail, st₂, rfl, ?_⟩
      rw [← h]
      by_cases hc : st₂.objectsPaths.contains (normPath (pre ++ fn)) = true
      · have hm : normPath (pre ++ fn) ∈ st₂.objectsPaths := by simpa using hc
        simp [hc, hm]
      · simp only [Bool.not_eq_true] at hc
        have hm : normPath (pre ++ fn) ∉ st₂.objectsPaths := by simpa using hc
        simp [hc, hm]

/-- C6 witness: a non-root document `f.dat` found under `parts/` with body
`0 hi` is embedded as `0 FILE parts/f.dat` + newline + the processed line,
the synthesized boundary carrying its own resolved path. -/
theorem c6_witness :
    (("parts/f.dat", (⟨[], ["parts/f.dat"], ["0 FILE parts/f.dat\n0 hi\n"], [], [],
        []⟩ : PackState)) : String × PackState).1 = normPath ("parts/" ++ "f.dat") ∧
    ∃ tail st₂,
      processLinesAux resolve0
          ((splitNl (jsReplaceAll "\r\n" "\n" "0 hi").data).map String.mk) 0 "" initialState =
        some (tail, st₂) ∧
      (("parts/f.dat", (⟨[], ["parts/f.dat"], ["0 FILE parts/f.dat\n0 hi\n"], [], [],
          []⟩ : PackState)) : String × PackState).2.objectsContents =
        (if st₂.objectsPaths.contains "parts/f.dat" then st₂.objectsContents
         else st₂.objectsContents ++
           [(if false then "" else "0 FILE " ++ "parts/f.dat" ++ "\n") ++ tail]) := by
  have h := (c6_boundary_suppression resolve0 "f.dat" "parts/" "0 hi" initialState).2 false
    ("parts/f.dat",
      ⟨[], ["parts/f.dat"], ["0 FILE parts/f.dat\n0 hi\n"], [], [], []⟩)
    (by decide)
  exact h

/-! ## Claim C8 (output sequences invariant) -/

theorem extendsOut_refl (st : PackState) : ExtendsOut st st :=
  ⟨⟨[], by simp⟩, ⟨[], by simp⟩⟩

theorem extendsOut_trans {a b c : PackState} (h1 : ExtendsOut a b)
    (h2 : ExtendsOut b c) : ExtendsOut a c := by
  obtain ⟨⟨l1, hl1⟩, ⟨m1, hm1⟩⟩ := h1
  obtain ⟨⟨l2, hl2⟩, ⟨m2, hm2⟩⟩ := h2
  exact ⟨⟨l1 ++ l2, by rw [hl2, hl1, List.append_assoc]⟩,
         ⟨m1 ++ m2, by rw [hm2, hm1, List.append_assoc]⟩⟩

theorem inv_of_fields {st st' : PackState} (hp : st'.objectsPaths = st.objectsPaths)
    (hc : st'.objectsContents = st.objectsContents) (h : Inv st) : Inv st' := by
  unfold Inv at h ⊢
  rw [hp, hc]
  exact h

theorem extendsOut_of_fields {st st' : PackState}
    (hp : st'.objectsPaths = st.objectsPaths)
    (hc : st'.objectsContents = st.objectsContents) : ExtendsOut st st' :=
  ⟨⟨[], by rw [hp]; simp⟩, ⟨[], by rw [hc]; simp⟩⟩

theorem searchPass_fst_fields (fs : String → Option String) (st : PackState) (n : String) :
    (searchPass fs st n).1.objectsPaths = st.objectsPaths ∧
    (searchPass fs st n).1.objectsContents = st.objectsContents := by
  cases h0 : fs n <;> cases h1 : fs ("parts/" ++ n) <;> cases h2 : fs ("p/" ++ n) <;>
    cases h3 : fs ("models/" ++ n) <;> simp [searchPass, recordReads, h0, h1, h2, h3]

theorem fetchLDrawValue_snd_fields (api : String → Option String) (st : PackState)
    (p : String) :
    (fetchLDrawValue api st p).2.objectsPaths = st.objectsPaths ∧
    (fetchLDrawValue api st p).2.objectsContents = st.objectsContents := by
  unfold fetchLDrawValue
  cases h1 : api (jsReplaceAll "bpb" "pb" p) with
  | some v => simp [h1]
  | none =>
    cases h2 : api (addZeroLastRun (jsReplaceAll "bpb" "pb" p)) <;> simp [h1, h2]

/-- A rewriting step changes the output sequences only through its recursive
resolver call. -/
theorem processLineStep_state {resolve : String → PackState → Option (String × PackState)}
    {i : Nat} {l : String} {st : PackState} {e : String} {st' : PackState}
    (h : processLineStep resolve i l st = some (e, st')) :
    (st'.objectsPaths = st.objectsPaths ∧ st'.objectsContents = st.objectsContents) ∨
    (∃ m p stR, resolve m st = some (p, stR) ∧
       st'.objectsPaths = stR.objectsPaths ∧ st'.objectsContents = stR.objectsContents) := by
  unfold processLineStep at h
  by_cases h0 : jsStartsWith (stripLeading l) "0 FILE " = true
  · simp only [h0, if_true] at h
    by_cases hi : i = 0
    · simp only [hi, if_pos] at h
      simp only [Option.some.injEq, Prod.mk.injEq] at h
      obtain ⟨-, hst⟩ := h
      subst hst
      exact Or.inl ⟨rfl, rfl⟩
    · simp only [if_neg hi] at h
      simp only [Option.some.injEq, Prod.mk.injEq] at h
      obtain ⟨-, hst⟩ := h
      subst hst
      refine Or.inl ?_
      constructor <;> (split <;> (try split) <;> rfl)
  · simp only [h0, Bool.false_eq_true, if_false] at h
    by_cases h1 : jsStartsWith (stripLeading l) "1 " = true
    · simp only [h1, if_true] at h
      by_cases h2 : normPath (String.mk (skipFields 13 ((stripLeading l).data.drop 2)).2) = ""
      · simp only [h2, ne_eq, not_true_eq_false, if_false] at h
        simp only [Option.some.injEq, Prod.mk.injEq] at h
        obtain ⟨-, hst⟩ := h
        subst hst
        exact Or.inl ⟨rfl, rfl⟩
      · simp only [ne_eq, h2, not_false_eq_true, if_true] at h
        by_cases h3 : truthy (mapLookup st.pathMap
            (normPath (String.mk (skipFields 13 ((stripLeading l).data.drop 2)).2))) = true
        · simp only [h3, if_true] at h
          simp only [Option.some.injEq, Prod.mk.injEq] at h
          obtain ⟨-, hst⟩ := h
          subst hst
          exact Or.inl ⟨rfl, rfl⟩
        · simp only [h3, Bool.false_eq_true, if_false] at h
          cases hr : resolve (normPath (String.mk
              (skipFields 13 ((stripLeading l).data.drop 2)).2)) st with
          | none => rw [hr] at h; exact absurd h (by simp)
          | some pr =>
            obtain ⟨p, stR⟩ := pr
            rw [hr] at h
            simp only [Option.some.injEq, Prod.mk.injEq] at h
            obtain ⟨-, hst⟩ := h
            subst hst
            exact Or.inr ⟨_, p, stR, hr, rfl, rfl⟩
    · simp only [h1, Bool.false_eq_true, if_false] at h
      simp only [Option.some.injEq, Prod.mk.injEq] at h
      obtain ⟨-, hst⟩ := h
      subst hst
      exact Or.inl ⟨rfl, rfl⟩

theorem processLineStep_inv {resolve : String → PackState → Option (String × PackState)}
    (hres : GoodResolve resolve) {i : Nat} {l : String} {st : PackState} {e : String}
    {st' : PackState} (hinv : Inv st) (h : processLineStep resolve i l st = some (e, st')) :
    Inv st' ∧ ExtendsOut st st' := by
  rcases processLineStep_state h with ⟨hp, hc⟩ | ⟨m, p, stR, hr, hp, hc⟩
  · exact ⟨inv_of_fields hp hc hinv, extendsOut_of_fields hp hc⟩
  · obtain ⟨hiR, heR⟩ := hres m st (p, stR) hinv hr
    exact ⟨inv_of_fields hp hc hiR,
           extendsOut_trans heR (extendsOut_of_fields hp hc)⟩

theorem processLinesAux_inv {resolve : String → PackState → Option (String × PackState)}
    (hres : GoodResolve resolve) :
    ∀ (lines : List String) (i : Nat) (acc : String) (st : PackState)
      (res : String × PackState),
      Inv st → processLinesAux resolve lines i acc st = some res →
      Inv res.2 ∧ ExtendsOut st res.2 := by
  intro lines
  induction lines with
  | nil =>
    intro i acc st res hinv h
    unfold processLinesAux at h
    simp only [Option.some.injEq] at h
    rw [← h]
    exact ⟨hinv, extendsOut_refl st⟩
  | cons l rest ih =>
    intro i acc st res hinv h
    unfold processLinesAux at h
    cases hs : processLineStep resolve i l st with
    | none => rw [hs] at h; exact absurd h (by simp)
    | some es =>
      obtain ⟨e, st'⟩ := es
      simp only [hs] at h
      obtain ⟨hi1, he1⟩ := processLineStep_inv hres hinv hs
      obtain ⟨hi2, he2⟩ := ih (i + 1) (acc ++ e) st' res hi1 h
      exact ⟨hi2, extendsOut_trans he1 he2⟩

theorem finishFound_inv {resolve : String → PackState → Option (String × PackState)}
    (hres : GoodResolve resolve) {fn pre content : String} {isRoot : Bool}
    {st : PackState} {res : String × PackState} (hinv : Inv st)
    (h : finishFound resolve fn pre content isRoot st = some res) :
    Inv res.2 ∧ ExtendsOut st res.2 := by
  simp only [finishFound] at h
  split at h
  · exact absurd h (by simp)
  · next body st₂ heq =>
    obtain ⟨hi2, he2⟩ := processLinesAux_inv hres _ 0 _ st (body, st₂) hinv heq
    simp only [Option.some.injEq] at h
    subst h
    by_cases hc : st₂.objectsPaths.contains (normPath (pre ++ fn)) = true
    · simp only [hc, if_true]
      exact ⟨hi2, he2⟩
    · simp only [Bool.not_eq_true] at hc
      simp only [hc, Bool.false_eq_true, if_false]
      have pnotin : normPath (pre ++ fn) ∉ st₂.objectsPaths := by simpa using hc
      refine ⟨⟨?_, ?_⟩, ?_⟩
      · simpa [List.nodup_append] using ⟨hi2.1, pnotin⟩
      · simp [hi2.2]
      · exact extendsOut_trans he2 ⟨⟨[normPath (pre ++ fn)], rfl⟩, ⟨[body], rfl⟩⟩

/-- C8: across every run of the resolver, the two output sequences satisfy
the embed-once invariant — `objectsPaths` has no duplicate resolved path and
stays in lockstep with `objectsContents` — and they are append-only, so a
path already present is never appended again by later resolutions. -/
theorem c8_embed_once_invariant (fs api : String → Option String) :
    ∀ (fuel : Nat) (n : String) (isRoot : Bool) (st : PackState)
      (res : String × PackState),
      Inv st → parseObject fs api fuel n isRoot st = some res →
      Inv res.2 ∧ ExtendsOut st res.2 := by
  intro fuel
  induction fuel with
  | zero =>
    intro n r st res hinv h
    exact absurd h (by simp [parseObject])
  | succ fuel ih =>
    intro n r st res hinv h
    have hres : GoodResolve (fun m s => parseObject fs api fuel m false s) :=
      fun m s rr hi hr => ih m false s rr hi hr
    rw [parseObject_succ] at h
    unfold parseObjectF at h
    simp only [searchPass_snd] at h
    have hsf0 := searchPass_fst_fields fs st n
    have hi0 : Inv (searchPass fs st n).1 := inv_of_fields hsf0.1 hsf0.2 hinv
    have he0 : ExtendsOut st (searchPass fs st n).1 := extendsOut_of_fields hsf0.1 hsf0.2
    cases hf : searchFind fs n with
    | some pc =>
      obtain ⟨pre, content⟩ := pc
      simp only [hf] at h
      obtain ⟨hi1, he1⟩ := finishFound_inv hres hi0 h
      exact ⟨hi1, extendsOut_trans he0 he1⟩
    | none =>
      simp only [hf] at h
      have hsf1 := searchPass_fst_fields fs (searchPass fs st n).1 (jsToLower n)
      have hi1 : Inv (searchPass fs (searchPass fs st n).1 (jsToLower n)).1 :=
        inv_of_fields hsf1.1 hsf1.2 hi0
      have he1 : ExtendsOut st (searchPass fs (searchPass fs st n).1 (jsToLower n)).1 :=
        extendsOut_trans he0 (extendsOut_of_fields hsf1.1 hsf1.2)
      cases hf2 : searchFind fs (jsToLower n) with
      | some pc =>
        obtain ⟨pre, content⟩ := pc
        simp only [hf2] at h
        obtain ⟨hi2, he2⟩ := finishFound_inv hres hi1 h
        exact ⟨hi2, extendsOut_trans he1 he2⟩
      | none =>
        simp only [hf2] at h
        by_cases hb : (!r && hasValidExtension n) = true
        · rw [if_pos hb] at h
          have hff := fetchLDrawValue_snd_fields api
            { (searchPass fs (searchPass fs st n).1 (jsToLower n)).1 with
              lookups := (searchPass fs (searchPass fs st n).1 (jsToLower n)).1.lookups ++
                [parseName n] } (parseName n)
          have hi3 : Inv (fetchLDrawValue api
              { (searchPass fs (searchPass fs st n).1 (jsToLower n)).1 with
                lookups := (searchPass fs (searchPass fs st n).1 (jsToLower n)).1.lookups ++
                  [parseName n] } (parseName n)).2 :=
            inv_of_fields hff.1 hff.2 hi1
          have he3 : ExtendsOut st (fetchLDrawValue api
              { (searchPass fs (searchPass fs st n).1 (jsToLower n)).1 with
                lookups := (searchPass fs (searchPass fs st n).1 (jsToLower n)).1.lookups ++
                  [parseName n] } (parseName n)).2 :=
            extendsOut_trans he1 (extendsOut_of_fields hff.1 hff.2)
          obtain ⟨hi4, he4⟩ := ih _ false _ res hi3 h
          exact ⟨hi4, extendsOut_trans he3 he4⟩
        · rw [if_neg hb] at h
          simp only [Option.some.injEq] at h
          rw [← h]
          exact ⟨hi1, he1⟩

/-- C8 witness: a concrete run (root not found, degenerate) starting from
the empty state preserves the embed-once invariant and only appends. -/
theorem c8_witness :
    Inv (("a.ldr",
        recordReads initialState
          ["a.ldr", "parts/" ++ "a.ldr", "p/" ++ "a.ldr", "models/" ++ "a.ldr",
           "a.ldr", "parts/" ++ "a.ldr", "p/" ++ "a.ldr", "models/" ++ "a.ldr"]) :
        String × PackState).2 ∧
    ExtendsOut initialState (("a.ldr",
        recordReads initialState
          ["a.ldr", "parts/" ++ "a.ldr", "p/" ++ "a.ldr", "models/" ++ "a.ldr",
           "a.ldr", "parts/" ++ "a.ldr", "p/" ++ "a.ldr", "models/" ++ "a.ldr"]) :
        String × PackState).2 :=
  c8_embed_once_invariant fsNone api0 1 "a.ldr" true initialState
    ("a.ldr",
      recordReads initialState
        ["a.ldr", "parts/" ++ "a.ldr", "p/" ++ "a.ldr", "models/" ++ "a.ldr",
         "a.ldr", "parts/" ++ "a.ldr", "p/" ++ "a.ldr", "models/" ++ "a.ldr"])
    ⟨List.nodup_nil, rfl⟩ (by decide)

end PackLDraw
